import Mathlib

/-
Verification development for the BabylonNative ResourceCache plugin.

The scripting-side coordinator (Plugins/ResourceCache/Source/ResourceCache.js)
is embedded as a pure state machine `RCState` together with one Lean function
per method of the `ResourceCache` class.  JavaScript `Map`s and plain objects
keyed by strings are embedded as association lists with unique keys
(`alistLookup` / `alistInsert` / `alistErase`).  Because JavaScript resource
descriptor objects are mutated in place and shared by reference between the
registry, the pending-load queue and task closures, descriptors live in an
explicit heap (`RCState.heap`, a list addressed by allocation index), and the
registry and the pending-load queue store heap addresses.

Observable effects are made explicit in the return values: emitted events
(the `_emit` calls) are returned as a `List Event`, and created asset-manager
tasks (`addTextureTask` / `addMeshTask` / `addBinaryFileTask`) as a
`List Task`; delivery of a task's onSuccess/onError callback is the separate
step `deliverOutcome`.

The native side (Plugins/ResourceCache/Source/ResourceCache.cpp) readiness
gate is embedded as `CppState` with `cppLoadResourcesFromJSON`,
`processPendingJsonQueue` and `setJsObjectReady`; the mutex-protected
operations of the C++ code are modelled as atomic steps, and the calls a step
marshals to the scripting side are returned as a list of
(experienceId, jsonString) pairs in dispatch order.
-/

namespace ResourceCache

/-- A resource descriptor as parsed from a manifest: `{id, type, url, ...}`.
The audio-only `loop` and `autoplay` options only parameterize the
constructed sound object and are not observable in this model. -/
structure ResourceData where
  rid : String
  rtype : String
  url : String
  deriving Repr, DecidableEq

/-- A per-experience progress record of `_loadingManifests`:
`{ total, loaded, failed }`. -/
structure ManifestProgress where
  total : Nat
  loaded : Nat
  failed : Nat
  deriving Repr, DecidableEq

/-- The events emitted through `_emit`. -/
inductive Event where
  | resourceLoaded (id ty : String) (experienceId : Option String)
  | resourceError (id msg : String) (experienceId : Option String)
  | manifestLoadComplete (experienceId : String) (success : Bool)
  deriving Repr, DecidableEq

/-- A created asset-manager load task.  Its success/error handlers close over
the descriptor object (here: its heap address) and the experienceId, which is
`none` for the standalone `updateResource` path. -/
structure Task where
  ptr : Nat
  experienceId : Option String
  deriving Repr, DecidableEq

/-- The mutable state of the JavaScript `ResourceCache` instance.
`heap` holds every descriptor object ever parsed (JavaScript objects are
never freed while referenced); `resources` is the `_resources` map from id
to the descriptor object; `scene` is `_scene` (scenes are identified by a
number, reference equality = number equality); `pendingLoads` is
`_pendingLoads`; `loadingManifests` is `_loadingManifests`. -/
structure RCState where
  heap : List ResourceData
  resources : List (String × Nat)
  scene : Option Nat
  pendingLoads : List (String × List Nat)
  loadingManifests : List (String × ManifestProgress)
  deriving Repr, DecidableEq

/-- Lookup in a string-keyed association list (JS `Map.get` / `obj[k]`). -/
def alistLookup {α : Type} (m : List (String × α)) (k : String) : Option α :=
  match m with
  | [] => none
  | (k0, v) :: rest => if k0 = k then some v else alistLookup rest k

/-- Insert-or-replace in a string-keyed association list
(JS `Map.set` / `obj[k] = v`). -/
def alistInsert {α : Type} (m : List (String × α)) (k : String) (v : α) :
    List (String × α) :=
  match m with
  | [] => [(k, v)]
  | (k0, v0) :: rest =>
    if k0 = k then (k, v) :: rest else (k0, v0) :: alistInsert rest k v

/-- Key removal from a string-keyed association list (JS `delete obj[k]`;
keys are unique in every reachable state, so removing every binding of the
key is the faithful embedding). -/
def alistErase {α : Type} (m : List (String × α)) (k : String) :
    List (String × α) :=
  m.filter (fun p => p.1 ≠ k)

/-- Replace the element at one heap address (in-place object mutation). -/
def listModify {α : Type} (l : List α) (i : Nat) (f : α → α) : List α :=
  match l, i with
  | [], _ => []
  | x :: xs, 0 => f x :: xs
  | x :: xs, n + 1 => x :: listModify xs n f

/-- The three `switch (resource.type)` cases of `_createAssetTask` that
create a task. -/
def isKnownType (t : String) : Bool :=
  t = "texture" || t = "model" || t = "audio"

/-- Mirror of `_checkManifestLoadComplete(experienceId, failureCount)`:
if no progress record exists for this experienceId it returns without any
effect; otherwise it emits `manifestLoadComplete` with
`success = (failureCount === 0)` and deletes the record. -/
def checkManifestLoadComplete (s : RCState) (eid : String) (failureCount : Nat) :
    RCState × List Event :=
  match alistLookup s.loadingManifests eid with
  | none => (s, [])
  | some _ =>
    ({ s with loadingManifests := alistErase s.loadingManifests eid },
     [Event.manifestLoadComplete eid (failureCount = 0)])

/-- Mirror of `_updateManifestProgress(experienceId, success)`: a missing
record (including the `experienceId === undefined` case of the standalone
update path) is dropped with a warning; otherwise `loaded` or `failed` is
incremented and, exactly when `loaded + failed === total`, completion is
evaluated with the record's final `failed` count. -/
def updateManifestProgress (s : RCState) (eid : Option String) (success : Bool) :
    RCState × List Event :=
  match eid with
  | none => (s, [])
  | some e =>
    match alistLookup s.loadingManifests e with
    | none => (s, [])
    | some m =>
      let m2 := if success then { m with loaded := m.loaded + 1 }
                else { m with failed := m.failed + 1 }
      let s2 := { s with loadingManifests := alistInsert s.loadingManifests e m2 }
      if m2.loaded + m2.failed = m2.total then
        checkManifestLoadComplete s2 e m2.failed
      else
        (s2, [])

/-- Mirror of `_createAssetTask(assetsManager, resource, experienceId)`:
for the three known types a task is created (its handlers close over the
descriptor address and the experienceId); for an unknown type no task is
created and the resource is immediately counted as failed via
`_updateManifestProgress(experienceId, false)`.  A dangling address cannot
be produced by the public operations and is a no-op artifact of the heap
encoding. -/
def createAssetTask (s : RCState) (ptr : Nat) (eid : Option String) :
    RCState × List Event × List Task :=
  match s.heap[ptr]? with
  | none => (s, [], [])
  | some r =>
    if isKnownType r.rtype then
      (s, [], [⟨ptr, eid⟩])
    else
      let u := updateManifestProgress s eid false
      (u.1, u.2, [])

/-- Mirror of `_loadResources(resources, experienceId)`: one
`_createAssetTask` call per descriptor, in manifest order, then
`assetsManager.load()` starts every created task. -/
def loadResources (s : RCState) (ptrs : List Nat) (eid : String) :
    RCState × List Event × List Task :=
  match ptrs with
  | [] => (s, [], [])
  | p :: rest =>
    let u := createAssetTask s p (some eid)
    let v := loadResources u.1 rest eid
    (v.1, u.2.1 ++ v.2.1, u.2.2 ++ v.2.2)

/-- The JavaScript falsy test `!experienceId` on an optional string
argument: missing/undefined and the empty string are falsy. -/
def falsyId (eid : Option String) : Bool :=
  match eid with
  | none => true
  | some s => s = ""

/-- Mirror of `loadFromJSON(jsonString, experienceId)`.  The `jsonString`
argument is embedded already parsed, as the optional `resources` array of
the manifest (`none` = the parsed document has no `resources` field).
A falsy experienceId returns immediately.  A missing or empty resources
array goes to `_checkManifestLoadComplete(experienceId, 0)`.  Otherwise the
descriptors are allocated, stored in the registry by id (last write wins),
a fresh progress record `{total, loaded: 0, failed: 0}` replaces any
existing record for this experienceId, and the batch is either parked in
`_pendingLoads` (no scene) or dispatched through `_loadResources`. -/
def loadFromJSON (s : RCState) (resources : Option (List ResourceData))
    (eid : Option String) : RCState × List Event × List Task :=
  match eid with
  | none => (s, [], [])
  | some e =>
    if e = "" then (s, [], [])
    else
      match resources with
      | none =>
        let u := checkManifestLoadComplete s e 0
        (u.1, u.2, [])
      | some rs =>
        if rs.isEmpty then
          let u := checkManifestLoadComplete s e 0
          (u.1, u.2, [])
        else
          let base := s.heap.length
          let ptrs := (List.range rs.length).map (fun i => base + i)
          let registry := (List.zip rs ptrs).foldl
            (fun m rp => alistInsert m rp.1.rid rp.2) s.resources
          let s1 : RCState :=
            { s with
              heap := s.heap ++ rs
              resources := registry
              loadingManifests :=
                alistInsert s.loadingManifests e ⟨rs.length, 0, 0⟩ }
          match s1.scene with
          | none => ({ s1 with pendingLoads := alistInsert s1.pendingLoads e ptrs }, [], [])
          | some _ => loadResources s1 ptrs e

/-- The pending-load replay loop inside `setScene`: iterate the snapshot of
`Object.keys(this._pendingLoads)` in insertion order and call
`_loadResources` for each entry. -/
def replayPending (s : RCState) (pending : List (String × List Nat)) :
    RCState × List Event × List Task :=
  match pending with
  | [] => (s, [], [])
  | (e, ptrs) :: rest =>
    let u := loadResources s ptrs e
    let v := replayPending u.1 rest
    (v.1, u.2.1 ++ v.2.1, u.2.2 ++ v.2.2)

/-- Mirror of `setScene(scene)`: identical scene is a no-op; otherwise the
held scene reference is replaced, every pending entry is replayed, and the
pending queue is cleared. -/
def setScene (s : RCState) (scene : Nat) : RCState × List Event × List Task :=
  if s.scene = some scene then
    (s, [], [])
  else
    let s1 : RCState := { s with scene := some scene }
    let u := replayPending s1 s1.pendingLoads
    ({ u.1 with pendingLoads := [] }, u.2.1, u.2.2)

/-- The outcome of one call to `updateResource`: the new state, the events
emitted and tasks created during the call, and whether the
resource-not-found warning was reported. -/
structure UpdateResult where
  state : RCState
  events : List Event
  tasks : List Task
  notFound : Bool
  deriving Repr, DecidableEq

/-- Mirror of `updateResource(id, newUrl)`: an unknown id is reported and
aborts; otherwise the stored descriptor's url is mutated in place, and only
when a scene is set is a single-resource task dispatched through
`_createAssetTask` with no experienceId. -/
def updateResource (s : RCState) (id newUrl : String) : UpdateResult :=
  match alistLookup s.resources id with
  | none => ⟨s, [], [], true⟩
  | some ptr =>
    let s1 : RCState :=
      { s with heap := listModify s.heap ptr (fun r => { r with url := newUrl }) }
    match s1.scene with
    | none => ⟨s1, [], [], false⟩
    | some _ =>
      let u := createAssetTask s1 ptr none
      ⟨u.1, u.2.1, u.2.2, false⟩

/-- Delivery of one task's outcome callback, as wired in `_createAssetTask`:
`onSuccess` emits `resourceLoaded {id, type, experienceId}` then records a
success; `onError` emits `resourceError {id, error, experienceId}` then
records a failure. -/
def deliverOutcome (s : RCState) (t : Task) (success : Bool) (msg : String) :
    RCState × List Event :=
  match s.heap[t.ptr]? with
  | none => (s, [])
  | some r =>
    if success then
      let u := updateManifestProgress s t.experienceId true
      (u.1, Event.resourceLoaded r.rid r.rtype t.experienceId :: u.2)
    else
      let u := updateManifestProgress s t.experienceId false
      (u.1, Event.resourceError r.rid msg t.experienceId :: u.2)

/-- A fresh `ResourceCache` instance as built by the constructor. -/
def initialState : RCState := ⟨[], [], none, [], []⟩

/-- Deliver a list of outcome recordings for one experience id, in arrival
order, through `_updateManifestProgress`. -/
def runOutcomes (s : RCState) (eid : String) (bs : List Bool) :
    RCState × List Event :=
  match bs with
  | [] => (s, [])
  | b :: rest =>
    let u := updateManifestProgress s (some eid) b
    let v := runOutcomes u.1 eid rest
    (v.1, u.2 ++ v.2)

/-- Number of failure recordings in a list of outcomes. -/
def failCount (bs : List Bool) : Nat :=
  match bs with
  | [] => 0
  | b :: rest => (if b then 0 else 1) + failCount rest

/-- Number of success recordings in a list of outcomes. -/
def succCount (bs : List Bool) : Nat :=
  match bs with
  | [] => 0
  | b :: rest => (if b then 1 else 0) + succCount rest

/-- The tasks `_createAssetTask` creates for the descriptor at one heap
address: one task if the type is known, none otherwise. -/
def taskOf (heap : List ResourceData) (ptr : Nat) (eid : Option String) :
    List Task :=
  match heap[ptr]? with
  | none => []
  | some r => if isKnownType r.rtype then [⟨ptr, eid⟩] else []

/-- The tasks `_loadResources` creates for a batch of descriptors. -/
def tasksFor (heap : List ResourceData) (ptrs : List Nat) (eid : Option String) :
    List Task :=
  match ptrs with
  | [] => []
  | p :: rest => taskOf heap p eid ++ tasksFor heap rest eid

/-- The tasks the `setScene` replay loop creates for the whole pending-load
queue, in queue order. -/
def tasksForPending (heap : List ResourceData)
    (pending : List (String × List Nat)) : List Task :=
  match pending with
  | [] => []
  | (e, ptrs) :: rest => tasksFor heap ptrs (some e) ++ tasksForPending heap rest

/-
The native-side readiness gate of ResourceCache.cpp.  Each mutex-protected
operation is one atomic step; the (experienceId, jsonString) pairs a step
hands to `DispatchLoadResourcesFromJSON` are returned in dispatch order.
-/

/-- The readiness-gate state of `ResourceCacheImpl`: the `m_jsReady` flag
and the `m_pendingJsonQueue` vector of (experienceId, jsonString) pairs. -/
structure CppState where
  jsReady : Bool
  pendingJsonQueue : List (String × String)
  deriving Repr, DecidableEq

/-- Mirror of `ResourceCacheImpl::LoadResourcesFromJSON`: if the JS side is
ready the call is marshalled immediately; otherwise the pair is appended to
the pending queue under the lock and nothing is dispatched. -/
def cppLoadResourcesFromJSON (s : CppState) (eid json : String) :
    CppState × List (String × String) :=
  if s.jsReady then
    (s, [(eid, json)])
  else
    ({ s with pendingJsonQueue := s.pendingJsonQueue ++ [(eid, json)] }, [])

/-- Mirror of `ResourceCacheImpl::ProcessPendingJsonQueue`: the queue is
moved out under the lock and every pending pair is dispatched in order. -/
def processPendingJsonQueue (s : CppState) : CppState × List (String × String) :=
  ({ s with pendingJsonQueue := [] }, s.pendingJsonQueue)

/-- Mirror of `ResourceCacheImpl::SetJsObjectReady`: when
`BABYLON._resourceCache` is reachable, the persistent reference is taken,
`m_jsReady` becomes true and the pending queue is drained; when it is not,
a setup error is thrown (the Bool in the result) and the state is left
untouched. -/
def setJsObjectReady (s : CppState) (coordinatorReachable : Bool) :
    CppState × List (String × String) × Bool :=
  if coordinatorReachable then
    let u := processPendingJsonQueue { s with jsReady := true }
    (u.1, u.2, false)
  else
    (s, [], true)

/-- The operations that touch the readiness gate: a manifest submission from
the native caller, or the readiness signal from the script. -/
inductive CppOp where
  | submit (eid json : String)
  | markReady (coordinatorReachable : Bool)
  deriving Repr, DecidableEq

/-- One atomic readiness-gate step together with the calls it dispatches. -/
def cppStep (s : CppState) (op : CppOp) : CppState × List (String × String) :=
  match op with
  | .submit e j => cppLoadResourcesFromJSON s e j
  | .markReady c =>
    let u := setJsObjectReady s c
    (u.1, u.2.1)

/-- Run a sequence of readiness-gate operations, collecting every dispatched
call in order. -/
def cppRun (s : CppState) (ops : List CppOp) : CppState × List (String × String) :=
  match ops with
  | [] => (s, [])
  | op :: rest =>
    let u := cppStep s op
    let v := cppRun u.1 rest
    (v.1, u.2 ++ v.2)

/-- The readiness gate as first constructed: not ready, empty queue. -/
def cppInitial : CppState := ⟨false, []⟩

/-- A list of submissions as readiness-gate operations. -/
def submitOps (l : List (String × String)) : List CppOp :=
  l.map (fun p => CppOp.submit p.1 p.2)

/-
Shared lemmas about the association-list and heap primitives.
-/

theorem alistLookup_insert_self {α : Type} (m : List (String × α)) (k : String)
    (v : α) : alistLookup (alistInsert m k v) k = some v := by
  induction m with
  | nil => simp [alistInsert, alistLookup]
  | cons p rest ih =>
    by_cases h : p.1 = k
    · simp [alistInsert, alistLookup, h]
    · simp [alistInsert, alistLookup, h, ih]

theorem alistLookup_erase_self {α : Type} (m : List (String × α)) (k : String) :
    alistLookup (alistErase m k) k = none := by
  induction m with
  | nil => simp [alistErase, alistLookup]
  | cons p rest ih =>
    by_cases h : p.1 = k
    · simpa [alistErase, alistLookup, h] using ih
    · simpa [alistErase, alistLookup, h] using ih

theorem listModify_getElem_self {α : Type} (l : List α) (i : Nat) (f : α → α) :
    (listModify l i f)[i]? = (l[i]?).map f := by
  induction l generalizing i with
  | nil => simp [listModify]
  | cons x xs ih =>
    cases i with
    | zero => simp [listModify]
    | succ n => simpa [listModify] using ih n

theorem listModify_getElem_other {α : Type} (l : List α) (i j : Nat) (f : α → α)
    (h : j ≠ i) : (listModify l i f)[j]? = l[j]? := by
  induction l generalizing i j with
  | nil => simp [listModify]
  | cons x xs ih =>
    cases i with
    | zero =>
      cases j with
      | zero => exact absurd rfl h
      | succ m => simp [listModify]
    | succ n =>
      cases j with
      | zero => simp [listModify]
      | succ m =>
        have : m ≠ n := fun hc => h (by simp [hc])
        simpa [listModify] using ih n m this

/-
Frame lemmas: the manifest tracker only touches `loadingManifests`, and the
dispatcher never touches the heap, the scene, the registry or the
pending-load queue.
-/

theorem checkManifestLoadComplete_frame (s : RCState) (e : String) (fc : Nat) :
    (checkManifestLoadComplete s e fc).1.heap = s.heap
    ∧ (checkManifestLoadComplete s e fc).1.resources = s.resources
    ∧ (checkManifestLoadComplete s e fc).1.scene = s.scene
    ∧ (checkManifestLoadComplete s e fc).1.pendingLoads = s.pendingLoads := by
  unfold checkManifestLoadComplete
  cases alistLookup s.loadingManifests e <;> exact ⟨rfl, rfl, rfl, rfl⟩

theorem updateManifestProgress_frame (s : RCState) (eid : Option String)
    (b : Bool) :
    (updateManifestProgress s eid b).1.heap = s.heap
    ∧ (updateManifestProgress s eid b).1.resources = s.resources
    ∧ (updateManifestProgress s eid b).1.scene = s.scene
    ∧ (updateManifestProgress s eid b).1.pendingLoads = s.pendingLoads := by
  unfold updateManifestProgress
  cases eid with
  | none => exact ⟨rfl, rfl, rfl, rfl⟩
  | some e =>
    dsimp only
    cases alistLookup s.loadingManifests e with
    | none => exact ⟨rfl, rfl, rfl, rfl⟩
    | some m =>
      dsimp only
      split <;> split <;>
        first
        | exact checkManifestLoadComplete_frame _ _ _
        | exact ⟨rfl, rfl, rfl, rfl⟩

theorem createAssetTask_frame (s : RCState) (ptr : Nat) (eid : Option String) :
    (createAssetTask s ptr eid).1.heap = s.heap
    ∧ (createAssetTask s ptr eid).1.resources = s.resources
    ∧ (createAssetTask s ptr eid).1.scene = s.scene
    ∧ (createAssetTask s ptr eid).1.pendingLoads = s.pendingLoads
    ∧ (createAssetTask s ptr eid).2.2 = taskOf s.heap ptr eid := by
  unfold createAssetTask taskOf
  cases s.heap[ptr]? with
  | none => exact ⟨rfl, rfl, rfl, rfl, rfl⟩
  | some r =>
    dsimp only
    split
    · exact ⟨rfl, rfl, rfl, rfl, rfl⟩
    · refine ⟨?_, ?_, ?_, ?_, rfl⟩
      · exact (updateManifestProgress_frame s eid false).1
      · exact (updateManifestProgress_frame s eid false).2.1
      · exact (updateManifestProgress_frame s eid false).2.2.1
      · exact (updateManifestProgress_frame s eid false).2.2.2

theorem createAssetTask_heap (s : RCState) (ptr : Nat) (eid : Option String) :
    (createAssetTask s ptr eid).1.heap = s.heap :=
  (createAssetTask_frame s ptr eid).1

theorem loadResources_frame (ptrs : List Nat) (s : RCState) (e : String) :
    (loadResources s ptrs e).1.heap = s.heap
    ∧ (loadResources s ptrs e).1.resources = s.resources
    ∧ (loadResources s ptrs e).1.scene = s.scene
    ∧ (loadResources s ptrs e).1.pendingLoads = s.pendingLoads
    ∧ (loadResources s ptrs e).2.2 = tasksFor s.heap ptrs (some e) := by
  induction ptrs generalizing s with
  | nil => exact ⟨rfl, rfl, rfl, rfl, rfl⟩
  | cons p rest ih =>
    obtain ⟨h1, h2, h3, h4, h5⟩ := createAssetTask_frame s p (some e)
    obtain ⟨g1, g2, g3, g4, g5⟩ := ih (createAssetTask s p (some e)).1
    unfold loadResources
    dsimp only
    refine ⟨?_, ?_, ?_, ?_, ?_⟩
    · rw [g1, h1]
    · rw [g2, h2]
    · rw [g3, h3]
    · rw [g4, h4]
    · show _ ++ _ = tasksFor s.heap (p :: rest) (some e)
      unfold tasksFor
      rw [g5, h5, h1]

theorem replayPending_frame (pending : List (String × List Nat)) (s : RCState) :
    (replayPending s pending).1.heap = s.heap
    ∧ (replayPending s pending).1.resources = s.resources
    ∧ (replayPending s pending).1.scene = s.scene
    ∧ (replayPending s pending).1.pendingLoads = s.pendingLoads
    ∧ (replayPending s pending).2.2 = tasksForPending s.heap pending := by
  induction pending generalizing s with
  | nil => exact ⟨rfl, rfl, rfl, rfl, rfl⟩
  | cons p rest ih =>
    obtain ⟨e, ptrs⟩ := p
    obtain ⟨h1, h2, h3, h4, h5⟩ := loadResources_frame ptrs s e
    obtain ⟨g1, g2, g3, g4, g5⟩ := ih (loadResources s ptrs e).1
    unfold replayPending
    dsimp only
    refine ⟨?_, ?_, ?_, ?_, ?_⟩
    · rw [g1, h1]
    · rw [g2, h2]
    · rw [g3, h3]
    · rw [g4, h4]
    · show _ ++ _ = tasksForPending s.heap ((e, ptrs) :: rest)
      unfold tasksForPending
      rw [g5, h5, h1]

/-
Manifest tracker lemmas: the four possible effects of one outcome recording
on a present record, then whole runs of recordings.
-/

theorem ump_success_complete (s : RCState) (e : String) (n l f : Nat)
    (hrec : alistLookup s.loadingManifests e = some ⟨n, l, f⟩)
    (h : l + 1 + f = n) :
    updateManifestProgress s (some e) true =
      ({ s with loadingManifests :=
          alistErase (alistInsert s.loadingManifests e ⟨n, l + 1, f⟩) e },
       [Event.manifestLoadComplete e (decide (f = 0))]) := by
  unfold updateManifestProgress
  dsimp only
  rw [hrec]
  dsimp only
  simp only [reduceIte]
  rw [if_pos h]
  unfold checkManifestLoadComplete
  dsimp only
  rw [alistLookup_insert_self]

theorem ump_success_incomplete (s : RCState) (e : String) (n l f : Nat)
    (hrec : alistLookup s.loadingManifests e = some ⟨n, l, f⟩)
    (h : ¬(l + 1 + f = n)) :
    updateManifestProgress s (some e) true =
      ({ s with loadingManifests := alistInsert s.loadingManifests e ⟨n, l + 1, f⟩ },
       []) := by
  unfold updateManifestProgress
  dsimp only
  rw [hrec]
  dsimp only
  simp only [reduceIte]
  rw [if_neg h]

theorem ump_fail_complete (s : RCState) (e : String) (n l f : Nat)
    (hrec : alistLookup s.loadingManifests e = some ⟨n, l, f⟩)
    (h : l + (f + 1) = n) :
    updateManifestProgress s (some e) false =
      ({ s with loadingManifests :=
          alistErase (alistInsert s.loadingManifests e ⟨n, l, f + 1⟩) e },
       [Event.manifestLoadComplete e (decide (f + 1 = 0))]) := by
  unfold updateManifestProgress
  dsimp only
  rw [hrec]
  dsimp only
  simp only [Bool.false_eq_true, if_false]
  rw [if_pos h]
  unfold checkManifestLoadComplete
  dsimp only
  rw [alistLookup_insert_self]

theorem ump_fail_incomplete (s : RCState) (e : String) (n l f : Nat)
    (hrec : alistLookup s.loadingManifests e = some ⟨n, l, f⟩)
    (h : ¬(l + (f + 1) = n)) :
    updateManifestProgress s (some e) false =
      ({ s with loadingManifests := alistInsert s.loadingManifests e ⟨n, l, f + 1⟩ },
       []) := by
  unfold updateManifestProgress
  dsimp only
  rw [hrec]
  dsimp only
  simp only [Bool.false_eq_true, if_false]
  rw [if_neg h]

theorem decide_nat_eq_congr {a b : Nat} (h : a = b) :
    decide (a = 0) = decide (b = 0) := by rw [h]

theorem failCount_perm {bs cs : List Bool} (h : bs.Perm cs) :
    failCount bs = failCount cs := by
  induction h with
  | nil => rfl
  | cons x _ ih => simp [failCount, ih]
  | swap x y l => cases x <;> cases y <;> simp [failCount]
  | trans _ _ ih1 ih2 => exact ih1.trans ih2

theorem runOutcomes_incomplete (eid : String) (bs : List Bool) :
    ∀ (s : RCState) (n l f : Nat),
      alistLookup s.loadingManifests eid = some ⟨n, l, f⟩ →
      l + f + bs.length < n →
      (runOutcomes s eid bs).2 = []
      ∧ alistLookup (runOutcomes s eid bs).1.loadingManifests eid
          = some ⟨n, l + succCount bs, f + failCount bs⟩ := by
  induction bs with
  | nil =>
    intro s n l f hrec _
    refine ⟨rfl, ?_⟩
    simpa [runOutcomes, succCount, failCount] using hrec
  | cons b rest ih =>
    intro s n l f hrec hlt
    simp only [List.length_cons] at hlt
    cases b with
    | true =>
      have hstep := ump_success_incomplete s eid n l f hrec (by omega)
      have hev : (updateManifestProgress s (some eid) true).2 = [] := by rw [hstep]
      have hrec2 : alistLookup
          (updateManifestProgress s (some eid) true).1.loadingManifests eid
          = some ⟨n, l + 1, f⟩ := by
        rw [hstep]; exact alistLookup_insert_self _ _ _
      obtain ⟨ih1, ih2⟩ := ih _ n (l + 1) f hrec2 (by omega)
      refine ⟨?_, ?_⟩
      · simp only [runOutcomes]
        rw [hev, ih1]
        rfl
      · simp only [runOutcomes]
        rw [ih2]
        simp [succCount, failCount, ManifestProgress.mk.injEq]
        omega
    | false =>
      have hstep := ump_fail_incomplete s eid n l f hrec (by omega)
      have hev : (updateManifestProgress s (some eid) false).2 = [] := by rw [hstep]
      have hrec2 : alistLookup
          (updateManifestProgress s (some eid) false).1.loadingManifests eid
          = some ⟨n, l, f + 1⟩ := by
        rw [hstep]; exact alistLookup_insert_self _ _ _
      obtain ⟨ih1, ih2⟩ := ih _ n l (f + 1) hrec2 (by omega)
      refine ⟨?_, ?_⟩
      · simp only [runOutcomes]
        rw [hev, ih1]
        rfl
      · simp only [runOutcomes]
        rw [ih2]
        simp [succCount, failCount, ManifestProgress.mk.injEq]
        omega

theorem runOutcomes_complete_aux (eid : String) (bs : List Bool) :
    ∀ (s : RCState) (n l f : Nat),
      alistLookup s.loadingManifests eid = some ⟨n, l, f⟩ →
      l + f + bs.length = n → bs ≠ [] →
      (runOutcomes s eid bs).2
          = [Event.manifestLoadComplete eid (decide (f + failCount bs = 0))]
      ∧ alistLookup (runOutcomes s eid bs).1.loadingManifests eid = none := by
  induction bs with
  | nil => intro s n l f _ _ hne; exact absurd rfl hne
  | cons b rest ih =>
    intro s n l f hrec hlen _
    simp only [List.length_cons] at hlen
    by_cases hrest : rest = []
    · subst hrest
      simp only [List.length_nil] at hlen
      cases b with
      | true =>
        have hstep := ump_success_complete s eid n l f hrec (by omega)
        refine ⟨?_, ?_⟩
        · simp only [runOutcomes]
          rw [hstep]
          rw [decide_nat_eq_congr (show f + failCount [true] = f by simp [failCount])]
          rfl
        · simp only [runOutcomes]
          rw [hstep]
          exact alistLookup_erase_self _ _
      | false =>
        have hstep := ump_fail_complete s eid n l f hrec (by omega)
        refine ⟨?_, ?_⟩
        · simp only [runOutcomes]
          rw [hstep]
          rw [decide_nat_eq_congr (show f + failCount [false] = f + 1 by simp [failCount])]
          rfl
        · simp only [runOutcomes]
          rw [hstep]
          exact alistLookup_erase_self _ _
    · have hpos : 0 < rest.length := List.length_pos.mpr hrest
      cases b with
      | true =>
        have hstep := ump_success_incomplete s eid n l f hrec (by omega)
        have hev : (updateManifestProgress s (some eid) true).2 = [] := by rw [hstep]
        have hrec2 : alistLookup
            (updateManifestProgress s (some eid) true).1.loadingManifests eid
            = some ⟨n, l + 1, f⟩ := by
          rw [hstep]; exact alistLookup_insert_self _ _ _
        obtain ⟨ih1, ih2⟩ := ih _ n (l + 1) f hrec2 (by omega) hrest
        refine ⟨?_, ?_⟩
        · simp only [runOutcomes]
          rw [hev, ih1]
          rw [decide_nat_eq_congr
            (show f + failCount (true :: rest) = f + failCount rest by
              simp [failCount])]
          rfl
        · simp only [runOutcomes]
          exact ih2
      | false =>
        have hstep := ump_fail_incomplete s eid n l f hrec (by omega)
        have hev : (updateManifestProgress s (some eid) false).2 = [] := by rw [hstep]
        have hrec2 : alistLookup
            (updateManifestProgress s (some eid) false).1.loadingManifests eid
            = some ⟨n, l, f + 1⟩ := by
          rw [hstep]; exact alistLookup_insert_self _ _ _
        obtain ⟨ih1, ih2⟩ := ih _ n l (f + 1) hrec2 (by omega) hrest
        refine ⟨?_, ?_⟩
        · simp only [runOutcomes]
          rw [hev, ih1]
          rw [decide_nat_eq_congr
            (show f + failCount (false :: rest) = (f + 1) + failCount rest by
              simp [failCount]; omega)]
          rfl
        · simp only [runOutcomes]
          exact ih2

/-
Readiness-gate lemmas.
-/

theorem submitOps_cons (p : String × String) (l : List (String × String)) :
    submitOps (p :: l) = CppOp.submit p.1 p.2 :: submitOps l := rfl

theorem cppRun_submits_ready (post : List (String × String)) :
    cppRun ⟨true, []⟩ (submitOps post) = (⟨true, []⟩, post) := by
  induction post with
  | nil => rfl
  | cons p rest ih =>
    rw [submitOps_cons]
    simp only [cppRun]
    have hstep : cppStep (⟨true, []⟩ : CppState) (CppOp.submit p.1 p.2)
        = (⟨true, []⟩, [(p.1, p.2)]) := rfl
    rw [hstep, ih]
    rfl

theorem cppRun_submits_queue (pre : List (String × String)) :
    ∀ q : List (String × String),
      cppRun ⟨false, q⟩ (submitOps pre) = (⟨false, q ++ pre⟩, []) := by
  induction pre with
  | nil => intro q; simp [submitOps, cppRun]
  | cons p rest ih =>
    intro q
    rw [submitOps_cons]
    simp only [cppRun]
    have hstep : cppStep (⟨false, q⟩ : CppState) (CppOp.submit p.1 p.2)
        = (⟨false, q ++ [(p.1, p.2)]⟩, []) := by
      simp [cppStep, cppLoadResourcesFromJSON]
    rw [hstep, ih]
    simp

theorem cppRun_mark_then_submits (q post : List (String × String)) :
    cppRun ⟨false, q⟩ (CppOp.markReady true :: submitOps post)
      = (⟨true, []⟩, q ++ post) := by
  simp only [cppRun]
  have hstep : cppStep (⟨false, q⟩ : CppState) (CppOp.markReady true)
      = (⟨true, []⟩, q) := rfl
  rw [hstep, cppRun_submits_ready]

theorem cppRun_append (l1 l2 : List CppOp) : ∀ s : CppState,
    cppRun s (l1 ++ l2)
      = ((cppRun (cppRun s l1).1 l2).1,
         (cppRun s l1).2 ++ (cppRun (cppRun s l1).1 l2).2) := by
  induction l1 with
  | nil => intro s; simp [cppRun]
  | cons op rest ih =>
    intro s
    simp only [List.cons_append, cppRun, List.append_eq]
    rw [ih]
    simp [List.append_assoc]

/-
Dispatch lemmas used for the second-manifest claim.
-/

theorem loadResources_all_known (ptrs : List Nat) (s : RCState) (e : String)
    (hk : ∀ p ∈ ptrs, ∃ r, s.heap[p]? = some r ∧ isKnownType r.rtype = true) :
    (loadResources s ptrs e).1 = s := by
  induction ptrs with
  | nil => rfl
  | cons p rest ih =>
    obtain ⟨r, hr, hkr⟩ := hk p (List.mem_cons_self p rest)
    have hc : createAssetTask s p (some e) = (s, [], [⟨p, some e⟩]) := by
      unfold createAssetTask
      rw [hr]
      dsimp only
      rw [if_pos hkr]
    unfold loadResources
    dsimp only
    rw [hc]
    exact ih (fun q hq => hk q (List.mem_cons_of_mem p hq))

theorem loadFromJSON_nonempty_manifests (s : RCState) (rs : List ResourceData)
    (eid : String) (hne : eid ≠ "") (hrs : rs ≠ [])
    (hk : ∀ r ∈ rs, isKnownType r.rtype = true) :
    (loadFromJSON s (some rs) (some eid)).1.loadingManifests
      = alistInsert s.loadingManifests eid ⟨rs.length, 0, 0⟩ := by
  unfold loadFromJSON
  try dsimp only
  rw [if_neg hne]
  rw [if_neg (by simpa [List.isEmpty_iff] using hrs)]
  try dsimp only
  cases hsc : s.scene with
  | none => rfl
  | some sc =>
    dsimp only
    refine Eq.trans (congrArg RCState.loadingManifests
      (loadResources_all_known _ _ _ ?_)) ?_
    · intro p hp
      obtain ⟨i, hi, rfl⟩ := List.mem_map.mp hp
      have hilt : i < rs.length := List.mem_range.mp hi
      refine ⟨rs[i], ?_, hk rs[i] (List.getElem_mem hilt)⟩
      show (s.heap ++ rs)[s.heap.length + i]? = some rs[i]
      rw [List.getElem?_append_right (by omega)]
      rw [show s.heap.length + i - s.heap.length = i from by omega]
      exact List.getElem?_eq_getElem hilt
    · rfl

/-
Witness states: small concrete caches used to instantiate the claim
theorems.
-/

def wStateC1 : RCState := ⟨[], [], none, [], [("e", ⟨2, 0, 0⟩)]⟩

def wStateC5a : RCState := ⟨[], [], some 5, [], []⟩

def wStateC5b : RCState :=
  ⟨[⟨"a", "texture", "u"⟩], [("a", 0)], none, [("e", [0])], [("e", ⟨1, 0, 0⟩)]⟩

def wStateC7 : RCState := ⟨[⟨"a", "texture", "u"⟩], [("a", 0)], none, [], []⟩

def wStateC8 : RCState :=
  ⟨[⟨"a", "weird", "u"⟩], [("a", 0)], some 1, [], [("e", ⟨1, 0, 0⟩)]⟩

def wStateC10 : RCState :=
  ⟨[⟨"a", "texture", "u"⟩], [("a", 0)], some 1, [], [("e", ⟨3, 1, 1⟩)]⟩

/-- Claim C1: for a manifest record with `total = n ≥ 1` and fresh counters,
delivering any n outcome recordings emits exactly one `manifestLoadComplete`
for that experienceId, with `success` true iff no failure was recorded; no
event is emitted before the n-th recording, the result is invariant under
permutation of the outcome order, and the progress record is deleted at the
moment of emission. -/
theorem manifest_completion_spec (s : RCState) (eid : String) (n : Nat)
    (bs : List Bool)
    (hrec : alistLookup s.loadingManifests eid = some ⟨n, 0, 0⟩)
    (hn : 1 ≤ n) (hlen : bs.length = n) :
    (runOutcomes s eid bs).2
        = [Event.manifestLoadComplete eid (decide (failCount bs = 0))]
    ∧ alistLookup (runOutcomes s eid bs).1.loadingManifests eid = none
    ∧ (∀ k, k < n → (runOutcomes s eid (bs.take k)).2 = [])
    ∧ (∀ cs, cs.Perm bs →
        (runOutcomes s eid cs).2
          = [Event.manifestLoadComplete eid (decide (failCount bs = 0))]) := by
  have hne : bs ≠ [] := by
    intro h
    rw [h] at hlen
    simp at hlen
    omega
  obtain ⟨h1, h2⟩ := runOutcomes_complete_aux eid bs s n 0 0 hrec (by omega) hne
  refine ⟨?_, h2, ?_, ?_⟩
  · rw [h1,
      decide_nat_eq_congr (show (0 : Nat) + failCount bs = failCount bs from by omega)]
  · intro k hk
    refine (runOutcomes_incomplete eid (bs.take k) s n 0 0 hrec ?_).1
    have ht : (bs.take k).length = k := by
      rw [List.length_take]; omega
    omega
  · intro cs hperm
    have hlc : cs.length = bs.length := hperm.length_eq
    have hnec : cs ≠ [] := by
      intro h
      rw [h] at hlc
      simp at hlc
      omega
    obtain ⟨g1, _⟩ := runOutcomes_complete_aux eid cs s n 0 0 hrec (by omega) hnec
    rw [g1,
      decide_nat_eq_congr (show (0 : Nat) + failCount cs = failCount bs from by
        rw [failCount_perm hperm]; omega)]

theorem manifest_completion_spec_witness :
    (runOutcomes wStateC1 "e" [true, false]).2
        = [Event.manifestLoadComplete "e" false]
    ∧ alistLookup (runOutcomes wStateC1 "e" [true, false]).1.loadingManifests "e"
        = none := by
  have h := manifest_completion_spec wStateC1 "e" 2 [true, false]
    (by decide) (by decide) (by decide)
  refine ⟨?_, h.2.1⟩
  rw [h.1]
  decide

/-- Claim C2, settled against the code at its failing input: ingesting an
empty manifest for an experienceId with no in-flight progress record emits
no event at all — `loadFromJSON` calls `_checkManifestLoadComplete`, which
returns without emitting because no record exists — contradicting the
claimed (and logged) immediate `manifestLoadComplete {success: true}`. -/
theorem empty_manifest_fresh_no_event :
    loadFromJSON initialState (some []) (some "e1") = (initialState, [], []) := by
  decide

/-- Claim C3: every submission made before the readiness signal is queued;
the readiness transition drains the queue exactly once, dispatching the
queued entries in FIFO submission order before any entry submitted after
readiness, and each entry is dispatched exactly once. -/
theorem readiness_gate_fifo (pre post : List (String × String)) :
    cppRun cppInitial (submitOps pre ++ CppOp.markReady true :: submitOps post)
      = (⟨true, []⟩, pre ++ post) := by
  rw [cppRun_append]
  rw [show cppInitial = (⟨false, []⟩ : CppState) from rfl]
  rw [cppRun_submits_queue pre []]
  dsimp only
  rw [cppRun_mark_then_submits]
  simp

/-- Claim C4: signaling readiness while the scripting-side coordinator
object is unreachable throws the setup error, leaves the whole gate state —
readiness flag and pending queue — untouched, and dispatches nothing. -/
theorem markReady_unreachable_noop (s : CppState) :
    setJsObjectReady s false = (s, [], true) := rfl

/-- Claim C5: `setScene` with the currently held scene is a no-op; with a
different scene it replaces the held scene, creates the load tasks for
every pending experience with its recorded descriptor list (in queue
order), and clears the pending queue; an immediate second call with the
same scene is always a no-op, so the pending queue is replayed at most
once. -/
theorem setScene_spec (s : RCState) (sc : Nat) :
    (s.scene = some sc → setScene s sc = (s, [], []))
    ∧ (s.scene ≠ some sc →
        (setScene s sc).1.scene = some sc
        ∧ (setScene s sc).1.pendingLoads = []
        ∧ (setScene s sc).2.2 = tasksForPending s.heap s.pendingLoads)
    ∧ setScene (setScene s sc).1 sc = ((setScene s sc).1, [], []) := by
  have hno : ∀ t : RCState, t.scene = some sc → setScene t sc = (t, [], []) := by
    intro t ht
    unfold setScene
    rw [if_pos ht]
  have hscene : (setScene s sc).1.scene = some sc := by
    by_cases h : s.scene = some sc
    · rw [hno s h]
      exact h
    · unfold setScene
      rw [if_neg h]
      dsimp only
      exact (replayPending_frame s.pendingLoads { s with scene := some sc }).2.2.1
  refine ⟨hno s, ?_, hno _ hscene⟩
  intro hne
  unfold setScene
  rw [if_neg hne]
  dsimp only
  refine ⟨?_, rfl, ?_⟩
  · exact (replayPending_frame s.pendingLoads { s with scene := some sc }).2.2.1
  · exact (replayPending_frame s.pendingLoads { s with scene := some sc }).2.2.2.2

theorem setScene_spec_witness :
    setScene wStateC5a 5 = (wStateC5a, [], [])
    ∧ (setScene wStateC5b 7).1.scene = some 7
    ∧ (setScene wStateC5b 7).1.pendingLoads = []
    ∧ (setScene wStateC5b 7).2.2 = [⟨0, some "e"⟩] := by
  have ha := (setScene_spec wStateC5a 5).1 (by decide)
  have hb := (setScene_spec wStateC5b 7).2.1 (by decide)
  refine ⟨ha, hb.1, hb.2.1, ?_⟩
  rw [hb.2.2]
  decide

/-- Claim C6: `updateResource` on an id absent from the registry reports
not-found and aborts: the state is unchanged, no event is emitted and no
task is created. -/
theorem updateResource_unknown_id (s : RCState) (id u : String)
    (h : alistLookup s.resources id = none) :
    updateResource s id u = ⟨s, [], [], true⟩ := by
  unfold updateResource
  rw [h]

theorem updateResource_unknown_id_witness :
    updateResource initialState "tex1" "u2" = ⟨initialState, [], [], true⟩ :=
  updateResource_unknown_id initialState "tex1" "u2" (by decide)

/-- Claim C7: `updateResource` on a known id while no scene is set mutates
only the stored descriptor's url: every other heap cell, the registry, the
held scene, the pending-load queue and the in-flight manifests are
unchanged, and no event, task or not-found report is produced. -/
theorem updateResource_no_scene (s : RCState) (id u : String) (ptr : Nat)
    (r : ResourceData)
    (hid : alistLookup s.resources id = some ptr)
    (hptr : s.heap[ptr]? = some r)
    (hscene : s.scene = none) :
    (updateResource s id u).state.heap[ptr]? = some { r with url := u }
    ∧ (∀ q, q ≠ ptr → (updateResource s id u).state.heap[q]? = s.heap[q]?)
    ∧ (updateResource s id u).state.resources = s.resources
    ∧ (updateResource s id u).state.scene = s.scene
    ∧ (updateResource s id u).state.pendingLoads = s.pendingLoads
    ∧ (updateResource s id u).state.loadingManifests = s.loadingManifests
    ∧ (updateResource s id u).events = []
    ∧ (updateResource s id u).tasks = []
    ∧ (updateResource s id u).notFound = false := by
  unfold updateResource
  rw [hid]
  dsimp only
  rw [hscene]
  refine ⟨?_, ?_, rfl, rfl, rfl, rfl, rfl, rfl, rfl⟩
  · rw [listModify_getElem_self, hptr]
    rfl
  · intro q hq
    exact listModify_getElem_other _ _ _ _ hq

theorem updateResource_no_scene_witness :
    (updateResource wStateC7 "a" "u2").state.heap[0]? = some ⟨"a", "texture", "u2"⟩
    ∧ (updateResource wStateC7 "a" "u2").events = []
    ∧ (updateResource wStateC7 "a" "u2").tasks = []
    ∧ (updateResource wStateC7 "a" "u2").notFound = false := by
  have h := updateResource_no_scene wStateC7 "a" "u2" 0 ⟨"a", "texture", "u"⟩
    (by decide) (by decide) (by decide)
  exact ⟨h.1, h.2.2.2.2.2.2.1, h.2.2.2.2.2.2.2.1, h.2.2.2.2.2.2.2.2⟩

/-- Claim C8: dispatching a descriptor whose type is not texture, model or
audio creates no task and behaves exactly as one immediate failure
recording against the manifest of the given experienceId. -/
theorem createAssetTask_unknown_type (s : RCState) (ptr : Nat)
    (eid : Option String) (r : ResourceData)
    (hptr : s.heap[ptr]? = some r)
    (ht : isKnownType r.rtype = false) :
    createAssetTask s ptr eid
      = ((updateManifestProgress s eid false).1,
         (updateManifestProgress s eid false).2, []) := by
  unfold createAssetTask
  rw [hptr]
  dsimp only
  rw [if_neg (by simp [ht])]

theorem createAssetTask_unknown_type_witness :
    createAssetTask wStateC8 0 (some "e")
      = (⟨[⟨"a", "weird", "u"⟩], [("a", 0)], some 1, [], []⟩,
         [Event.manifestLoadComplete "e" false], []) := by
  have h := createAssetTask_unknown_type wStateC8 0 (some "e") ⟨"a", "weird", "u"⟩
    (by decide) (by decide)
  rw [h]
  decide

/-- Claim C9: `loadFromJSON` with a missing or falsy experienceId is a
complete no-op: state unchanged, no event, no task. -/
theorem loadFromJSON_falsy_id (s : RCState) (resources : Option (List ResourceData))
    (eid : Option String) (h : falsyId eid = true) :
    loadFromJSON s resources eid = (s, [], []) := by
  cases eid with
  | none => rfl
  | some e =>
    have he : e = "" := by simpa [falsyId] using h
    unfold loadFromJSON
    dsimp only
    rw [if_pos he]

theorem loadFromJSON_falsy_id_witness :
    loadFromJSON initialState (some [⟨"a", "texture", "u"⟩]) none
        = (initialState, [], [])
    ∧ loadFromJSON initialState (some [⟨"a", "texture", "u"⟩]) (some "")
        = (initialState, [], []) :=
  ⟨loadFromJSON_falsy_id _ _ none (by decide),
   loadFromJSON_falsy_id _ _ (some "") (by decide)⟩

/-- Claim C10: a second `loadFromJSON` for an experienceId whose manifest is
still in flight replaces the progress record with fresh counters
`{total: new count, loaded: 0, failed: 0}`, and a subsequent outcome
recording from the first manifest's still-running tasks is counted against
the new record. -/
theorem loadFromJSON_replaces_record (s : RCState) (rs : List ResourceData)
    (eid : String) (m : ManifestProgress)
    (_hin : alistLookup s.loadingManifests eid = some m)
    (hne : eid ≠ "") (hrs : rs ≠ [])
    (hk : ∀ r ∈ rs, isKnownType r.rtype = true) :
    alistLookup (loadFromJSON s (some rs) (some eid)).1.loadingManifests eid
      = some ⟨rs.length, 0, 0⟩
    ∧ (2 ≤ rs.length →
        alistLookup
          (updateManifestProgress (loadFromJSON s (some rs) (some eid)).1
            (some eid) true).1.loadingManifests eid
          = some ⟨rs.length, 1, 0⟩) := by
  have hrec : alistLookup (loadFromJSON s (some rs) (some eid)).1.loadingManifests eid
      = some ⟨rs.length, 0, 0⟩ := by
    rw [loadFromJSON_nonempty_manifests s rs eid hne hrs hk]
    exact alistLookup_insert_self _ _ _
  refine ⟨hrec, ?_⟩
  intro h2
  have hstep := ump_success_incomplete (loadFromJSON s (some rs) (some eid)).1 eid
    rs.length 0 0 hrec (by omega)
  rw [hstep]
  exact alistLookup_insert_self _ _ _

theorem loadFromJSON_replaces_record_witness :
    alistLookup
      (loadFromJSON wStateC10
        (some [⟨"b", "texture", "v"⟩, ⟨"c", "model", "w/x"⟩])
        (some "e")).1.loadingManifests "e" = some ⟨2, 0, 0⟩
    ∧ alistLookup
        (updateManifestProgress
          (loadFromJSON wStateC10
            (some [⟨"b", "texture", "v"⟩, ⟨"c", "model", "w/x"⟩])
            (some "e")).1 (some "e") true).1.loadingManifests "e"
        = some ⟨2, 1, 0⟩ := by
  have h := loadFromJSON_replaces_record wStateC10
    [⟨"b", "texture", "v"⟩, ⟨"c", "model", "w/x"⟩] "e" ⟨3, 1, 1⟩
    (by decide) (by decide) (by decide) (by decide)
  exact ⟨h.1, h.2 (by decide)⟩

end ResourceCache
